import Mathlib

set_option maxRecDepth 100000

/-!
Verification development for the audio-to-viseme classification engine of
`src/hooks/demo/use-face.ts` (the 14-viseme Adobe-style variant).  Real
numbers of the source are modelled as rationals; a spectrum frame is the
list of raw analyser magnitudes (bytes in the source), normalized by 255
inside the pipeline exactly as the source does.
-/

/-- Adobe Character Animator inspired viseme types (14 visemes),
from the `AdobeViseme` union type of the source. -/
inductive AdobeViseme where
  | Neutral
  | M
  | F
  | L
  | D
  | S
  | R
  | Ah
  | Ee
  | Oh
  | Uh
  | WOo
  | Smile
  | Surprised
  deriving DecidableEq

/-- Audio feature vector, from the `AudioFeatures` interface of the source.
The source's `bands` array always has exactly 8 entries. -/
structure AudioFeatures where
  bands : Fin 8 → ℚ
  deltaBands : Fin 8 → ℚ
  volume : ℚ
  centroid : ℚ

/-- Binary minimum on rationals (`Math.min` of the source), written with an
explicit comparison so that it evaluates by kernel reduction. -/
def mathMin (a b : ℚ) : ℚ := if a ≤ b then a else b

/-- Binary maximum on rationals (`Math.max` of the source). -/
def mathMax (a b : ℚ) : ℚ := if b ≤ a then a else b

theorem mathMin_eq_min (a b : ℚ) : mathMin a b = min a b := by
  rw [min_def, mathMin]

theorem mathMax_eq_max (a b : ℚ) : mathMax a b = max a b := by
  unfold mathMax
  rcases le_or_lt b a with h | h
  · rw [if_pos h, max_eq_left h]
  · rw [if_neg (not_le.mpr h), max_eq_right h.le]

/-- Linear interpolation helper, from `lerp` of the source. -/
def lerp (start e factor : ℚ) : ℚ := start + (e - start) * factor

/-- Band normalization used inside `computeVisemeScores`: each instantaneous
band is divided by the corresponding rolling-average band when that average
is strictly positive, otherwise the raw band value is kept. -/
def normalizeBands (bands avgBands : Fin 8 → ℚ) : Fin 8 → ℚ := fun i =>
  if avgBands i > 0 then bands i / avgBands i else bands i

/-- Low macro-band energy: mean of normalized bands 0, 1, 2. -/
def lowEnergyOf (nb : Fin 8 → ℚ) : ℚ := (nb 0 + nb 1 + nb 2) / 3

/-- Mid macro-band energy: mean of normalized bands 3, 4, 5. -/
def midEnergyOf (nb : Fin 8 → ℚ) : ℚ := (nb 3 + nb 4 + nb 5) / 3

/-- High macro-band energy: mean of normalized bands 6, 7. -/
def highEnergyOf (nb : Fin 8 → ℚ) : ℚ := (nb 6 + nb 7) / 2

/-- Viseme scoring, from `computeVisemeScores` of the source.  The source
builds a record initialized to all zeros and conditionally assigns each
category at most once; this is expressed as one function per category. -/
def computeVisemeScores (features avgFeatures : AudioFeatures)
    (deltaVolume : ℚ) (_deltaCentroid : ℚ) : AdobeViseme → ℚ :=
  if features.volume < 0.02 then
    fun v => if v = AdobeViseme.Neutral then 1 else 0
  else
    let normalizedBands := normalizeBands features.bands avgFeatures.bands
    let lowEnergy := lowEnergyOf normalizedBands
    let midEnergy := midEnergyOf normalizedBands
    let highEnergy := highEnergyOf normalizedBands
    let volume := features.volume
    let centroid := features.centroid
    fun v =>
      match v with
      | .Neutral => 0
      | .M =>
        if deltaVolume > 0.15 ∧ lowEnergy > midEnergy * 0.8 then
          0.6 + deltaVolume * 0.4 else 0
      | .F =>
        if highEnergy > 0.4 ∧ centroid > 3000 then
          0.5 + highEnergy * 0.3 else 0
      | .D =>
        if midEnergy > 0.3 ∧ highEnergy > 0.2 ∧ volume < 0.6 then
          0.4 + midEnergy * 0.3 else 0
      | .L =>
        if lowEnergy > 0.4 ∧ midEnergy > 0.2 ∧ highEnergy < 0.2 then
          0.5 + lowEnergy * 0.3 else 0
      | .S =>
        if highEnergy > 0.6 ∧ centroid > 4000 then
          0.7 + highEnergy * 0.3 else 0
      | .R =>
        if midEnergy > 0.3 ∧ lowEnergy > 0.2 ∧ highEnergy < 0.25 then
          0.4 + midEnergy * 0.3 else 0
      | .Ah =>
        if lowEnergy > 0.5 ∧ midEnergy > 0.4 ∧ highEnergy < 0.3 then
          0.6 + volume * 0.3 else 0
      | .Ee =>
        if highEnergy > 0.25 ∧ midEnergy > 0.3 ∧ centroid > 2000 then
          0.5 + highEnergy * 0.3 else 0
      | .Oh =>
        if lowEnergy > 0.4 ∧ midEnergy > 0.2 ∧ midEnergy < 0.5 ∧ highEnergy < 0.2 then
          0.5 + lowEnergy * 0.3 else 0
      | .Uh =>
        if lowEnergy > 0.3 ∧ midEnergy > 0.2 ∧ midEnergy < 0.4 ∧ highEnergy < 0.15 then
          0.5 + lowEnergy * 0.25 else 0
      | .WOo =>
        if lowEnergy > 0.5 ∧ midEnergy < 0.3 ∧ highEnergy < 0.15 ∧ centroid < 1000 then
          0.6 + lowEnergy * 0.3 else 0
      | .Smile => 0
      | .Surprised =>
        if deltaVolume > 0.25 ∧ highEnergy > 0.5 ∧ volume > 0.7 then
          0.4 + deltaVolume * 0.4 else 0

/-- Key order of the score record in the source; `Object.entries` iterates
string keys in insertion order. -/
def visemeList : List AdobeViseme :=
  [.Neutral, .M, .F, .L, .D, .S, .R, .Ah, .Ee, .Oh, .Uh, .WOo, .Smile, .Surprised]

/-- Anti-jitter adjustment of `selectViseme`: the current viseme's score is
boosted by the factor 1.15, every other score is left unchanged. -/
def adjScore (scores : AdobeViseme → ℚ) (currentViseme v : AdobeViseme) : ℚ :=
  if v = currentViseme then scores v * 1.15 else scores v

/-- One iteration of the max-search loop of `selectViseme`: a candidate
replaces the running winner only on a strictly greater adjusted score. -/
def selStep (adj : AdobeViseme → ℚ) (acc : ℚ × AdobeViseme) (v : AdobeViseme) :
    ℚ × AdobeViseme :=
  if adj v > acc.1 then (adj v, v) else acc

/-- The max-search loop of `selectViseme`: running maximum starts at 0 with
winner `Neutral`. -/
def visemeFold (scores : AdobeViseme → ℚ) (currentViseme : AdobeViseme) :
    ℚ × AdobeViseme :=
  visemeList.foldl (selStep (adjScore scores currentViseme))
    ((0 : ℚ), AdobeViseme.Neutral)

/-- Winner selection with hysteresis, from `selectViseme` of the source:
keep the current viseme when the winner differs and either the hold time is
below the minimum dwell 0.04 or the winning adjusted score is below the
confidence floor 0.35; otherwise return the winner. -/
def selectViseme (scores : AdobeViseme → ℚ) (currentViseme : AdobeViseme)
    (holdTime : ℚ) : AdobeViseme :=
  if (visemeFold scores currentViseme).2 ≠ currentViseme ∧ holdTime < 0.04 then
    currentViseme
  else if (visemeFold scores currentViseme).2 ≠ currentViseme ∧
      (visemeFold scores currentViseme).1 < 0.35 then
    currentViseme
  else (visemeFold scores currentViseme).2

/-- Normalized value of one analyser bin: `dataArray[i] / 255` in the source;
out-of-range indices contribute the default 0. -/
def binVal (frame : List ℚ) (i : ℕ) : ℚ := frame.getD i 0 / 255

/-- The eight frequency band bin ranges, from `bandRanges` of the source. -/
def bandRanges : List (ℕ × ℕ) :=
  [(1, 3), (3, 6), (6, 11), (11, 22), (22, 43), (43, 86), (86, 128), (128, 170)]

/-- Bin indices actually visited for a band range: `start` inclusive up to
`min end bufferLength` exclusive, as in the source's inner loop. -/
def rangeBins (frame : List ℚ) (r : ℕ × ℕ) : List ℕ :=
  List.range' r.1 (min r.2 frame.length - r.1)

/-- Number of bins of a band range (`count` in the source); truncated
subtraction agrees with the source's `count > 0` guard. -/
def bandCount (frame : List ℚ) (r : ℕ × ℕ) : ℕ := min r.2 frame.length - r.1

/-- Sum of the normalized magnitudes over one band range. -/
def bandSum (frame : List ℚ) (r : ℕ × ℕ) : ℚ :=
  ((rangeBins frame r).map (binVal frame)).sum

/-- Mean magnitude of one band; 0 when its bin range is empty
(`bands.push(count > 0 ? sum / count : 0)` in the source). -/
def bandValue (frame : List ℚ) (r : ℕ × ℕ) : ℚ :=
  if 0 < bandCount frame r then bandSum frame r / (bandCount frame r : ℚ) else 0

/-- The 8-entry `bands` array computed by the source's band loop. -/
def extractBands (frame : List ℚ) : Fin 8 → ℚ := fun i =>
  bandValue frame (bandRanges.getD i.val (0, 0))

/-- Accumulated `totalEnergy` of the source: the normalized magnitudes summed
over the band bin ranges only (bins 1 to 169, clipped to the frame length). -/
def totalEnergy (frame : List ℚ) : ℚ := (bandRanges.map (bandSum frame)).sum

/-- Accumulated `weightedSum` of the source: each visited bin weighted by its
index times the 46.8 Hz bin width. -/
def weightedSum (frame : List ℚ) : ℚ :=
  (bandRanges.map (fun r =>
    ((rangeBins frame r).map (fun i => binVal frame i * (i : ℚ) * 46.8)).sum)).sum

/-- Volume of a frame: `Math.min(1, totalEnergy / bufferLength)`. -/
def volumeOf (frame : List ℚ) : ℚ := mathMin 1 (totalEnergy frame / (frame.length : ℚ))

/-- Spectral centroid of a frame:
`totalEnergy > 0 ? weightedSum / totalEnergy : 0`. -/
def centroidOf (frame : List ℚ) : ℚ :=
  if totalEnergy frame > 0 then weightedSum frame / totalEnergy frame else 0

/-- Continuous mouth-shape channels (`currentShape` ref in the source). -/
structure ShapeState where
  open_ : ℚ
  spread : ℚ
  round : ℚ

/-- Published per-tick record, from the `MouthShape` type of the source. -/
structure MouthShape where
  viseme : AdobeViseme
  intensity : ℚ
  open_ : ℚ
  spread : ℚ
  round : ℚ

/-- Persistent analysis state of the `useFace` hook: feature history, rolling
average, previous volume/centroid, classifier state and shape state. -/
structure FaceState where
  history : List AudioFeatures
  avgFeatures : AudioFeatures
  lastVolume : ℚ
  lastCentroid : ℚ
  currentViseme : AdobeViseme
  visemeHoldTime : ℚ
  shape : ShapeState

/-- Initial values of all the refs of the `useFace` hook. -/
def initFaceState : FaceState where
  history := []
  avgFeatures :=
    { bands := fun _ => 0.1
      deltaBands := fun _ => 0
      volume := 0.1
      centroid := 1000 }
  lastVolume := 0
  lastCentroid := 0
  currentViseme := .Neutral
  visemeHoldTime := 0
  shape := { open_ := 0, spread := 0, round := 0 }

/-- History update of the source: push the new feature vector, then shift
(drop the oldest entry) when the length exceeds 10. -/
def pushHistory (hist : List AudioFeatures) (features : AudioFeatures) :
    List AudioFeatures :=
  let h := hist ++ [features]
  if h.length > 10 then h.tail else h

/-- Rolling-average recomputation of the source: per-band, volume and
centroid means over the history; `deltaBands` of the average is zeroed. -/
def averageFeatures (hist : List AudioFeatures) : AudioFeatures :=
  let len : ℚ := (hist.length : ℚ)
  { bands := fun i => (hist.map (fun f => f.bands i)).sum / len
    deltaBands := fun _ => 0
    volume := (hist.map (fun f => f.volume)).sum / len
    centroid := (hist.map (fun f => f.centroid)).sum / len }

/-- Frame-to-frame volume delta: current volume minus `lastVolume`. -/
def stepDeltaVolume (st : FaceState) (frame : List ℚ) : ℚ :=
  volumeOf frame - st.lastVolume

/-- Frame-to-frame centroid delta: current centroid minus `lastCentroid`. -/
def stepDeltaCentroid (st : FaceState) (frame : List ℚ) : ℚ :=
  centroidOf frame - st.lastCentroid

/-- The feature vector assembled for the current frame; `deltaBands` compares
against the most recent history entry and is 0 when the history is empty. -/
def stepFeatures (st : FaceState) (frame : List ℚ) : AudioFeatures :=
  { bands := extractBands frame
    deltaBands := fun i =>
      match st.history.getLast? with
      | some last => extractBands frame i - last.bands i
      | none => 0
    volume := volumeOf frame
    centroid := centroidOf frame }

/-- Jaw-openness target: `Math.min(1, volume * 1.5 + (bands[2] + bands[3]) * 0.5)`. -/
def targetOpenOf (bands : Fin 8 → ℚ) (volume : ℚ) : ℚ :=
  mathMin 1 (volume * 1.5 + (bands 2 + bands 3) * 0.5)

/-- Spread target: `Math.min(1, (bands[5] + bands[6]) * 1.5)`. -/
def targetSpreadOf (bands : Fin 8 → ℚ) : ℚ :=
  mathMin 1 ((bands 5 + bands 6) * 1.5)

/-- Roundness target:
`Math.min(1, Math.max(0, bands[0] * 2 * (1 - targetSpread)))`. -/
def targetRoundOf (bands : Fin 8 → ℚ) : ℚ :=
  mathMin 1 (mathMax 0 (bands 0 * 2 * (1 - targetSpreadOf bands)))

/-- Attack smoothing factor of the source. -/
def attackFactor : ℚ := 0.3

/-- Decay smoothing factor of the source. -/
def decayFactor : ℚ := 0.15

/-- One smoothing step of one shape channel: linear interpolation toward the
target, with the attack factor when the target strictly exceeds the current
value and the decay factor otherwise. -/
def smoothChannel (current target : ℚ) : ℚ :=
  lerp current target (if target > current then attackFactor else decayFactor)

/-- Per-tick shape smoothing of the source, channel by channel. -/
def shapeStep (shape : ShapeState) (bands : Fin 8 → ℚ) (volume : ℚ) : ShapeState :=
  { open_ := smoothChannel shape.open_ (targetOpenOf bands volume)
    spread := smoothChannel shape.spread (targetSpreadOf bands)
    round := smoothChannel shape.round (targetRoundOf bands) }

/-- Feature history after the push/shift of the current tick. -/
def stepHistory (st : FaceState) (frame : List ℚ) : List AudioFeatures :=
  pushHistory st.history (stepFeatures st frame)

/-- Rolling average after the current tick's eager recomputation; the
source's `length > 0` guard is kept. -/
def stepAvg (st : FaceState) (frame : List ℚ) : AudioFeatures :=
  if (stepHistory st frame).length > 0 then averageFeatures (stepHistory st frame)
  else st.avgFeatures

/-- Score table computed on the current tick, fed with the current feature
vector and the freshly recomputed rolling average. -/
def stepScores (st : FaceState) (frame : List ℚ) : AdobeViseme → ℚ :=
  computeVisemeScores (stepFeatures st frame) (stepAvg st frame)
    (stepDeltaVolume st frame) (stepDeltaCentroid st frame)

/-- One tick of the `analyze` callback of the source: feature extraction,
history/average update, viseme classification with hold-time hysteresis,
shape smoothing, and the published `MouthShape`. -/
def analyzeStep (st : FaceState) (frame : List ℚ) (deltaTime : ℚ) :
    FaceState × MouthShape :=
  let features := stepFeatures st frame
  let history' := stepHistory st frame
  let avg' := stepAvg st frame
  let scores := stepScores st frame
  let holdTime' := st.visemeHoldTime + deltaTime
  let newViseme := selectViseme scores st.currentViseme holdTime'
  let holdTime'' := if newViseme ≠ st.currentViseme then 0 else holdTime'
  let shape' := shapeStep st.shape features.bands features.volume
  let intensity := mathMin 1 (features.volume * 2)
  (⟨history', avg', features.volume, features.centroid, newViseme, holdTime'', shape'⟩,
   ⟨newViseme, intensity, shape'.open_, shape'.spread, shape'.round⟩)

/-- State reached after consuming a list of (frame, deltaTime) inputs. -/
def analyzeRun (st : FaceState) (inputs : List (List ℚ × ℚ)) : FaceState :=
  inputs.foldl (fun s p => (analyzeStep s p.1 p.2).1) st

theorem analyzeStep_currentViseme (st : FaceState) (frame : List ℚ) (dt : ℚ) :
    (analyzeStep st frame dt).1.currentViseme
      = selectViseme (stepScores st frame) st.currentViseme (st.visemeHoldTime + dt) := rfl

theorem analyzeStep_holdTime (st : FaceState) (frame : List ℚ) (dt : ℚ) :
    (analyzeStep st frame dt).1.visemeHoldTime
      = if selectViseme (stepScores st frame) st.currentViseme (st.visemeHoldTime + dt)
            ≠ st.currentViseme then 0
        else st.visemeHoldTime + dt := rfl

theorem analyzeStep_history (st : FaceState) (frame : List ℚ) (dt : ℚ) :
    (analyzeStep st frame dt).1.history = stepHistory st frame := rfl

theorem analyzeStep_avg (st : FaceState) (frame : List ℚ) (dt : ℚ) :
    (analyzeStep st frame dt).1.avgFeatures = stepAvg st frame := rfl

theorem analyzeStep_lastVolume (st : FaceState) (frame : List ℚ) (dt : ℚ) :
    (analyzeStep st frame dt).1.lastVolume = volumeOf frame := rfl

theorem analyzeStep_lastCentroid (st : FaceState) (frame : List ℚ) (dt : ℚ) :
    (analyzeStep st frame dt).1.lastCentroid = centroidOf frame := rfl

theorem analyzeStep_shape (st : FaceState) (frame : List ℚ) (dt : ℚ) :
    (analyzeStep st frame dt).1.shape
      = shapeStep st.shape (extractBands frame) (volumeOf frame) := rfl

theorem analyzeStep_output_viseme (st : FaceState) (frame : List ℚ) (dt : ℚ) :
    (analyzeStep st frame dt).2.viseme = (analyzeStep st frame dt).1.currentViseme := rfl

theorem analyzeStep_intensity (st : FaceState) (frame : List ℚ) (dt : ℚ) :
    (analyzeStep st frame dt).2.intensity = mathMin 1 (volumeOf frame * 2) := rfl

theorem analyzeRun_nil (st : FaceState) : analyzeRun st [] = st := rfl

theorem analyzeRun_cons (st : FaceState) (p : List ℚ × ℚ) (t : List (List ℚ × ℚ)) :
    analyzeRun st (p :: t) = analyzeRun (analyzeStep st p.1 p.2).1 t := rfl

theorem getD_eq_zero_of_all_zero (frame : List ℚ) (h : ∀ x ∈ frame, x = 0) (i : ℕ) :
    frame.getD i 0 = 0 := by
  rcases lt_or_ge i frame.length with hi | hi
  · rw [List.getD_eq_getElem frame 0 hi]
    exact h _ (List.getElem_mem hi)
  · exact List.getD_eq_default frame 0 hi

theorem totalEnergy_eq_zero_of_all_zero (frame : List ℚ) (h : ∀ x ∈ frame, x = 0) :
    totalEnergy frame = 0 := by
  unfold totalEnergy
  apply List.sum_eq_zero
  intro x hx
  rw [List.mem_map] at hx
  obtain ⟨r, _, rfl⟩ := hx
  apply List.sum_eq_zero
  intro y hy
  rw [List.mem_map] at hy
  obtain ⟨i, _, rfl⟩ := hy
  rw [binVal, getD_eq_zero_of_all_zero frame h i, zero_div]

theorem volumeOf_eq_zero_of_all_zero (frame : List ℚ) (h : ∀ x ∈ frame, x = 0) :
    volumeOf frame = 0 := by
  rw [volumeOf, totalEnergy_eq_zero_of_all_zero frame h, zero_div, mathMin]
  norm_num

/-- Claim C1: whenever the computed volume is below the silence threshold
0.02, `computeVisemeScores` returns the table assigning 1 to `Neutral` and 0
to every other viseme (scoring is skipped); and on an all-zero frame the
computed volume is 0 and the published intensity `min(1, volume*2)` is 0. -/
theorem claim_C1 :
    (∀ (features avgFeatures : AudioFeatures) (deltaVolume deltaCentroid : ℚ),
      features.volume < 0.02 →
        computeVisemeScores features avgFeatures deltaVolume deltaCentroid
            AdobeViseme.Neutral = 1 ∧
        ∀ v : AdobeViseme, v ≠ AdobeViseme.Neutral →
          computeVisemeScores features avgFeatures deltaVolume deltaCentroid v = 0) ∧
    (∀ (st : FaceState) (frame : List ℚ) (deltaTime : ℚ), (∀ x ∈ frame, x = 0) →
      volumeOf frame = 0 ∧ (analyzeStep st frame deltaTime).2.intensity = 0) := by
  constructor
  · intro features avgFeatures deltaVolume deltaCentroid hv
    rw [computeVisemeScores, if_pos hv]
    constructor
    · simp
    · intro v hvne
      simp [hvne]
  · intro st frame deltaTime hz
    have h0 : volumeOf frame = 0 := volumeOf_eq_zero_of_all_zero frame hz
    refine ⟨h0, ?_⟩
    rw [analyzeStep_intensity, h0, mathMin]
    norm_num

theorem claim_C1_witness :
    ((fun _ : Fin 8 => (0 : ℚ)) = (fun _ : Fin 8 => (0 : ℚ)))
      ∧ computeVisemeScores ⟨fun _ => 0, fun _ => 0, 0, 0⟩ ⟨fun _ => 0, fun _ => 0, 0, 0⟩
          0 0 AdobeViseme.Neutral = 1
      ∧ computeVisemeScores ⟨fun _ => 0, fun _ => 0, 0, 0⟩ ⟨fun _ => 0, fun _ => 0, 0, 0⟩
          0 0 AdobeViseme.Ah = 0
      ∧ volumeOf (List.replicate 5 0) = 0
      ∧ (analyzeStep initFaceState (List.replicate 5 0) 0.05).2.intensity = 0 := by
  have h1 := claim_C1.1 ⟨fun _ => 0, fun _ => 0, 0, 0⟩ ⟨fun _ => 0, fun _ => 0, 0, 0⟩
    0 0 (by norm_num)
  have h2 := claim_C1.2 initFaceState (List.replicate 5 0) 0.05
    (by intro x hx; exact (List.eq_of_mem_replicate hx))
  exact ⟨rfl, h1.1, h1.2 AdobeViseme.Ah (by simp), h2.1, h2.2⟩

/-- Claim C9: the division guards of the pipeline.  Band normalization
divides by the rolling-average band only when it is strictly positive and
otherwise keeps the raw band; the centroid is 0 when the total energy is not
positive; a band whose bin range is empty has value 0; and in each guarded
branch the divisor is nonzero. -/
theorem claim_C9 :
    (∀ (bands avgBands : Fin 8 → ℚ) (i : Fin 8),
      (0 < avgBands i →
        normalizeBands bands avgBands i = bands i / avgBands i ∧ avgBands i ≠ 0) ∧
      (¬ 0 < avgBands i → normalizeBands bands avgBands i = bands i)) ∧
    (∀ frame : List ℚ, totalEnergy frame = 0 → centroidOf frame = 0) ∧
    (∀ frame : List ℚ, 0 < totalEnergy frame →
      centroidOf frame = weightedSum frame / totalEnergy frame ∧ totalEnergy frame ≠ 0) ∧
    (∀ (frame : List ℚ) (r : ℕ × ℕ), bandCount frame r = 0 → bandValue frame r = 0) ∧
    (∀ (frame : List ℚ) (r : ℕ × ℕ), 0 < bandCount frame r →
      bandValue frame r = bandSum frame r / (bandCount frame r : ℚ) ∧
      (bandCount frame r : ℚ) ≠ 0) := by
  refine ⟨?_, ?_, ?_, ?_, ?_⟩
  · intro bands avgBands i
    constructor
    · intro hpos
      rw [normalizeBands, if_pos hpos]
      exact ⟨rfl, ne_of_gt hpos⟩
    · intro hneg
      rw [normalizeBands, if_neg hneg]
  · intro frame h0
    rw [centroidOf, if_neg (by rw [h0]; exact lt_irrefl 0)]
  · intro frame hpos
    rw [centroidOf, if_pos hpos]
    exact ⟨rfl, ne_of_gt hpos⟩
  · intro frame r h0
    rw [bandValue, if_neg (by rw [h0]; exact lt_irrefl 0)]
  · intro frame r hpos
    rw [bandValue, if_pos hpos]
    exact ⟨rfl, Nat.cast_ne_zero.mpr (Nat.pos_iff_ne_zero.mp hpos)⟩

theorem mem_visemeList (v : AdobeViseme) : v ∈ visemeList := by
  cases v <;> simp [visemeList]

theorem selFold_le (adj : AdobeViseme → ℚ) (l : List AdobeViseme)
    (acc : ℚ × AdobeViseme) :
    acc.1 ≤ (l.foldl (selStep adj) acc).1 ∧
    ∀ v ∈ l, adj v ≤ (l.foldl (selStep adj) acc).1 := by
  induction l generalizing acc with
  | nil => exact ⟨le_refl _, by simp⟩
  | cons v t ih =>
    rw [List.foldl_cons]
    obtain ⟨h1, h2⟩ := ih (selStep adj acc v)
    have hstep : acc.1 ≤ (selStep adj acc v).1 := by
      rw [selStep]; split_ifs with h
      · exact le_of_lt h
      · exact le_refl _
    have hv : adj v ≤ (selStep adj acc v).1 := by
      rw [selStep]; split_ifs with h
      · exact le_refl _
      · exact le_of_not_lt h
    refine ⟨le_trans hstep h1, ?_⟩
    intro u hu
    rcases List.mem_cons.mp hu with rfl | hu
    · exact le_trans hv h1
    · exact h2 u hu

theorem selFold_cases (adj : AdobeViseme → ℚ) (l : List AdobeViseme)
    (acc : ℚ × AdobeViseme) :
    l.foldl (selStep adj) acc = acc ∨
    ((l.foldl (selStep adj) acc).2 ∈ l ∧
      adj (l.foldl (selStep adj) acc).2 = (l.foldl (selStep adj) acc).1 ∧
      acc.1 < (l.foldl (selStep adj) acc).1) := by
  induction l generalizing acc with
  | nil => exact Or.inl rfl
  | cons v t ih =>
    rw [List.foldl_cons]
    by_cases h : adj v > acc.1
    · have hstep : selStep adj acc v = (adj v, v) := by rw [selStep, if_pos h]
      rw [hstep]
      rcases ih (adj v, v) with heq | ⟨hmem, hadj, hlt⟩
      · rw [heq]
        exact Or.inr ⟨List.mem_cons_self v t, rfl, h⟩
      · exact Or.inr ⟨List.mem_cons_of_mem v hmem, hadj, lt_trans h hlt⟩
    · have hstep : selStep adj acc v = acc := by rw [selStep, if_neg h]
      rw [hstep]
      rcases ih acc with heq | ⟨hmem, hadj, hlt⟩
      · exact Or.inl heq
      · exact Or.inr ⟨List.mem_cons_of_mem v hmem, hadj, hlt⟩

theorem visemeFold_cases (scores : AdobeViseme → ℚ) (cur : AdobeViseme) :
    visemeFold scores cur = (0, AdobeViseme.Neutral) ∨
    ((visemeFold scores cur).2 ∈ visemeList ∧
      adjScore scores cur (visemeFold scores cur).2 = (visemeFold scores cur).1 ∧
      0 < (visemeFold scores cur).1) :=
  selFold_cases (adjScore scores cur) visemeList (0, AdobeViseme.Neutral)

theorem visemeFold_fst_nonneg (scores : AdobeViseme → ℚ) (cur : AdobeViseme) :
    0 ≤ (visemeFold scores cur).1 :=
  (selFold_le (adjScore scores cur) visemeList (0, AdobeViseme.Neutral)).1

theorem visemeFold_ub (scores : AdobeViseme → ℚ) (cur v : AdobeViseme) :
    adjScore scores cur v ≤ (visemeFold scores cur).1 :=
  (selFold_le (adjScore scores cur) visemeList (0, AdobeViseme.Neutral)).2
    v (mem_visemeList v)

theorem adjScore_nonneg (scores : AdobeViseme → ℚ) (cur : AdobeViseme)
    (hnn : ∀ v, 0 ≤ scores v) (v : AdobeViseme) : 0 ≤ adjScore scores cur v := by
  rw [adjScore]; split_ifs
  · exact mul_nonneg (hnn v) (by norm_num)
  · exact hnn v

theorem visemeFold_attains (scores : AdobeViseme → ℚ) (cur : AdobeViseme)
    (hnn : ∀ v, 0 ≤ scores v) :
    adjScore scores cur (visemeFold scores cur).2 = (visemeFold scores cur).1 := by
  rcases visemeFold_cases scores cur with heq | ⟨_, hadj, _⟩
  · have hub := visemeFold_ub scores cur AdobeViseme.Neutral
    rw [heq] at hub ⊢
    exact le_antisymm hub (adjScore_nonneg scores cur hnn _)
  · exact hadj

theorem adjScore_smile_nonpos (scores : AdobeViseme → ℚ) (cur : AdobeViseme)
    (hsm : scores AdobeViseme.Smile = 0) :
    adjScore scores cur AdobeViseme.Smile ≤ 0 := by
  rw [adjScore]; split_ifs <;> rw [hsm] <;> norm_num


theorem visemeFold_snd_ne_smile (scores : AdobeViseme → ℚ) (cur : AdobeViseme)
    (hsm : scores AdobeViseme.Smile = 0) :
    (visemeFold scores cur).2 ≠ AdobeViseme.Smile := by
  rcases visemeFold_cases scores cur with heq | ⟨_, hadj, hlt⟩
  · rw [heq]; simp
  · intro hcontra
    rw [hcontra] at hadj
    have hle := adjScore_smile_nonpos scores cur hsm
    rw [hadj] at hle
    exact absurd hlt (not_lt.mpr hle)

theorem selectViseme_ne_cur (scores : AdobeViseme → ℚ) (cur : AdobeViseme) (ht : ℚ)
    (hne : selectViseme scores cur ht ≠ cur) :
    selectViseme scores cur ht = (visemeFold scores cur).2 ∧
    (visemeFold scores cur).2 ≠ cur ∧ 0.04 ≤ ht ∧
    0.35 ≤ (visemeFold scores cur).1 := by
  by_cases c1 : (visemeFold scores cur).2 ≠ cur ∧ ht < 0.04
  · rw [selectViseme, if_pos c1] at hne
    exact absurd rfl hne
  · by_cases c2 : (visemeFold scores cur).2 ≠ cur ∧ (visemeFold scores cur).1 < 0.35
    · rw [selectViseme, if_neg c1, if_pos c2] at hne
      exact absurd rfl hne
    · have hsel : selectViseme scores cur ht = (visemeFold scores cur).2 := by
        rw [selectViseme, if_neg c1, if_neg c2]
      have hw : (visemeFold scores cur).2 ≠ cur := by rw [hsel] at hne; exact hne
      refine ⟨hsel, hw, ?_, ?_⟩
      · by_contra hlt
        exact c1 ⟨hw, not_le.mp hlt⟩
      · by_contra hlt
        exact c2 ⟨hw, not_le.mp hlt⟩

theorem analyzeStep_change (st : FaceState) (frame : List ℚ) (dt : ℚ)
    (hne : (analyzeStep st frame dt).1.currentViseme ≠ st.currentViseme) :
    0.04 ≤ st.visemeHoldTime + dt ∧ (analyzeStep st frame dt).1.visemeHoldTime = 0 := by
  rw [analyzeStep_currentViseme] at hne
  have h := selectViseme_ne_cur _ _ _ hne
  refine ⟨h.2.2.1, ?_⟩
  rw [analyzeStep_holdTime, if_pos hne]

theorem analyzeStep_no_change (st : FaceState) (frame : List ℚ) (dt : ℚ)
    (heq : (analyzeStep st frame dt).1.currentViseme = st.currentViseme) :
    (analyzeStep st frame dt).1.visemeHoldTime = st.visemeHoldTime + dt := by
  rw [analyzeStep_currentViseme] at heq
  rw [analyzeStep_holdTime, if_neg (by simp [heq])]

theorem computeVisemeScores_nonneg (features avgFeatures : AudioFeatures)
    (deltaVolume deltaCentroid : ℚ) (v : AdobeViseme) :
    0 ≤ computeVisemeScores features avgFeatures deltaVolume deltaCentroid v := by
  rw [computeVisemeScores]
  split_ifs with hv
  · dsimp only
    split_ifs <;> norm_num
  · have hvol : (0.02 : ℚ) ≤ features.volume := le_of_not_lt hv
    dsimp only
    cases v <;> dsimp only <;> try norm_num
    all_goals (split_ifs with h <;> try norm_num)
    all_goals (obtain ⟨h1, h2⟩ := h; linarith)

/-- Claim C2: selection multiplies the current viseme's score by 1.15 and
takes the maximum adjusted score (score tables produced by the classifier
are nonnegative, and under that condition the loop winner attains the
maximum); a differing winner is rejected when the hold time is below 0.04 or
the winning adjusted score is below 0.35, otherwise it is accepted; on every
tick `dt` is first accumulated into the hold time, which is reset to 0
exactly when the viseme switches. -/
theorem claim_C2 :
    (∀ (features avgFeatures : AudioFeatures) (deltaVolume deltaCentroid : ℚ)
        (v : AdobeViseme),
      0 ≤ computeVisemeScores features avgFeatures deltaVolume deltaCentroid v) ∧
    (∀ (scores : AdobeViseme → ℚ) (cur v : AdobeViseme),
      adjScore scores cur v = if v = cur then scores v * 1.15 else scores v) ∧
    (∀ (scores : AdobeViseme → ℚ) (cur : AdobeViseme), (∀ v, 0 ≤ scores v) →
      adjScore scores cur (visemeFold scores cur).2 = (visemeFold scores cur).1 ∧
      ∀ v, adjScore scores cur v ≤ (visemeFold scores cur).1) ∧
    (∀ (scores : AdobeViseme → ℚ) (cur : AdobeViseme) (ht : ℚ),
      ((visemeFold scores cur).2 ≠ cur →
        ht < 0.04 ∨ (visemeFold scores cur).1 < 0.35 →
        selectViseme scores cur ht = cur) ∧
      ((visemeFold scores cur).2 ≠ cur → ¬ ht < 0.04 →
        ¬ (visemeFold scores cur).1 < 0.35 →
        selectViseme scores cur ht = (visemeFold scores cur).2) ∧
      ((visemeFold scores cur).2 = cur → selectViseme scores cur ht = cur)) ∧
    (∀ (st : FaceState) (frame : List ℚ) (dt : ℚ),
      (analyzeStep st frame dt).1.currentViseme
        = selectViseme (stepScores st frame) st.currentViseme
            (st.visemeHoldTime + dt) ∧
      ((analyzeStep st frame dt).1.currentViseme ≠ st.currentViseme →
        (analyzeStep st frame dt).1.visemeHoldTime = 0) ∧
      ((analyzeStep st frame dt).1.currentViseme = st.currentViseme →
        (analyzeStep st frame dt).1.visemeHoldTime = st.visemeHoldTime + dt)) := by
  refine ⟨computeVisemeScores_nonneg, fun scores cur v => rfl, ?_, ?_, ?_⟩
  · intro scores cur hnn
    exact ⟨visemeFold_attains scores cur hnn, visemeFold_ub scores cur⟩
  · intro scores cur ht
    refine ⟨?_, ?_, ?_⟩
    · intro hne hcond
      rcases hcond with hlt | hscore
      · rw [selectViseme, if_pos ⟨hne, hlt⟩]
      · by_cases c1 : (visemeFold scores cur).2 ≠ cur ∧ ht < 0.04
        · rw [selectViseme, if_pos c1]
        · rw [selectViseme, if_neg c1, if_pos ⟨hne, hscore⟩]
    · intro hne h1 h2
      rw [selectViseme, if_neg (fun c => h1 c.2), if_neg (fun c => h2 c.2)]
    · intro heq
      rw [selectViseme, if_neg (fun c => c.1 heq), if_neg (fun c => c.1 heq), heq]
  · intro st frame dt
    exact ⟨analyzeStep_currentViseme st frame dt,
      fun hne => (analyzeStep_change st frame dt hne).2,
      analyzeStep_no_change st frame dt⟩

theorem claim_C2_witness :
    adjScore (fun _ => 0) AdobeViseme.Neutral
        (visemeFold (fun _ => 0) AdobeViseme.Neutral).2
      = (visemeFold (fun _ => 0) AdobeViseme.Neutral).1
    ∧ selectViseme (fun v => if v = AdobeViseme.M then 1 else 0) AdobeViseme.Neutral 1
      = (visemeFold (fun v => if v = AdobeViseme.M then 1 else 0) AdobeViseme.Neutral).2 := by
  constructor
  · exact (claim_C2.2.2.1 (fun _ => 0) AdobeViseme.Neutral (fun v => le_refl 0)).1
  · exact (claim_C2.2.2.2.1 (fun v => if v = AdobeViseme.M then 1 else 0)
      AdobeViseme.Neutral 1).2.1
      (by with_unfolding_all decide)
      (by norm_num)
      (by with_unfolding_all decide)

theorem stepScores_smile (st : FaceState) (frame : List ℚ) :
    stepScores st frame AdobeViseme.Smile = 0 := by
  rw [stepScores, computeVisemeScores]
  split_ifs <;> rfl

theorem selectViseme_ne_smile (scores : AdobeViseme → ℚ) (cur : AdobeViseme)
    (ht : ℚ) (hcur : cur ≠ AdobeViseme.Smile)
    (hsm : scores AdobeViseme.Smile = 0) :
    selectViseme scores cur ht ≠ AdobeViseme.Smile := by
  have hf := visemeFold_snd_ne_smile scores cur hsm
  rw [selectViseme]; split_ifs <;> assumption

theorem analyzeRun_ne_smile (inputs : List (List ℚ × ℚ)) (st : FaceState)
    (hcur : st.currentViseme ≠ AdobeViseme.Smile) :
    (analyzeRun st inputs).currentViseme ≠ AdobeViseme.Smile := by
  induction inputs generalizing st with
  | nil => exact hcur
  | cons p t ih =>
    rw [analyzeRun_cons]
    apply ih
    rw [analyzeStep_currentViseme]
    exact selectViseme_ne_smile _ _ _ hcur (stepScores_smile st p.1)

/-- Claim C10: `computeVisemeScores` never assigns `Smile` a nonzero score,
so starting from the initial state (`Neutral`, hold 0) the published viseme
is never `Smile`: one declared member of the 14-viseme alphabet is
unreachable at the public interface. -/
theorem claim_C10 :
    (∀ (features avgFeatures : AudioFeatures) (deltaVolume deltaCentroid : ℚ),
      computeVisemeScores features avgFeatures deltaVolume deltaCentroid
        AdobeViseme.Smile = 0) ∧
    (∀ inputs : List (List ℚ × ℚ),
      (analyzeRun initFaceState inputs).currentViseme ≠ AdobeViseme.Smile) ∧
    (∀ (inputs : List (List ℚ × ℚ)) (frame : List ℚ) (dt : ℚ),
      (analyzeStep (analyzeRun initFaceState inputs) frame dt).2.viseme
        ≠ AdobeViseme.Smile) := by
  refine ⟨?_, ?_, ?_⟩
  · intro features avgFeatures deltaVolume deltaCentroid
    rw [computeVisemeScores]
    split_ifs <;> rfl
  · intro inputs
    exact analyzeRun_ne_smile inputs initFaceState (by simp [initFaceState])
  · intro inputs frame dt
    rw [analyzeStep_output_viseme, analyzeStep_currentViseme]
    exact selectViseme_ne_smile _ _ _
      (analyzeRun_ne_smile inputs initFaceState (by simp [initFaceState]))
      (stepScores_smile _ _)

theorem analyzeRun_no_change (inputs : List (List ℚ × ℚ)) (st : FaceState)
    (h : ∀ k ≤ inputs.length,
      (analyzeRun st (inputs.take k)).currentViseme = st.currentViseme) :
    (analyzeRun st inputs).currentViseme = st.currentViseme ∧
    (analyzeRun st inputs).visemeHoldTime
      = st.visemeHoldTime + (inputs.map Prod.snd).sum := by
  induction inputs generalizing st with
  | nil => exact ⟨rfl, by rw [analyzeRun_nil]; simp⟩
  | cons p t ih =>
    have h1 : (analyzeStep st p.1 p.2).1.currentViseme = st.currentViseme := by
      have := h 1 (Nat.succ_le_succ (Nat.zero_le _))
      rwa [List.take_succ_cons, List.take_zero, analyzeRun_cons, analyzeRun_nil] at this
    have h' : ∀ k ≤ t.length,
        (analyzeRun (analyzeStep st p.1 p.2).1 (t.take k)).currentViseme
          = (analyzeStep st p.1 p.2).1.currentViseme := by
      intro k hk
      have := h (k + 1) (Nat.succ_le_succ hk)
      rw [List.take_succ_cons, analyzeRun_cons] at this
      rw [this, h1]
    obtain ⟨hcv, hht⟩ := ih (analyzeStep st p.1 p.2).1 h'
    constructor
    · rw [analyzeRun_cons, hcv, h1]
    · rw [analyzeRun_cons, hht, analyzeStep_no_change st p.1 p.2 h1,
        List.map_cons, List.sum_cons]
      ring

/-- Claim C3: once the published viseme changes at some tick, it cannot
change again until the accumulated `dt` since that change reaches the
minimum dwell time 0.04 s: the time consumed by the quiet ticks plus the
second change tick is at least 0.04. -/
theorem claim_C3 (st0 : FaceState) (p0 : List ℚ × ℚ) (mid : List (List ℚ × ℚ))
    (p1 : List ℚ × ℚ)
    (hd0 : 0 < p0.2) (hdmid : ∀ q ∈ mid, 0 < q.2) (hd1 : 0 < p1.2)
    (hchange0 : (analyzeStep st0 p0.1 p0.2).1.currentViseme ≠ st0.currentViseme)
    (hquiet : ∀ k ≤ mid.length,
      (analyzeRun (analyzeStep st0 p0.1 p0.2).1 (mid.take k)).currentViseme
        = (analyzeStep st0 p0.1 p0.2).1.currentViseme)
    (hchange1 :
      (analyzeStep (analyzeRun (analyzeStep st0 p0.1 p0.2).1 mid)
          p1.1 p1.2).1.currentViseme
        ≠ (analyzeRun (analyzeStep st0 p0.1 p0.2).1 mid).currentViseme) :
    0.04 ≤ (mid.map Prod.snd).sum + p1.2 := by
  have hreset := (analyzeStep_change st0 p0.1 p0.2 hchange0).2
  obtain ⟨_, hht⟩ := analyzeRun_no_change mid (analyzeStep st0 p0.1 p0.2).1 hquiet
  have hge := (analyzeStep_change _ p1.1 p1.2 hchange1).1
  rw [hht, hreset, zero_add] at hge
  exact hge

theorem claim_C3_witness :
    (analyzeStep initFaceState (List.replicate 11 255) 0.05).1.currentViseme
      ≠ initFaceState.currentViseme
    ∧ (0.04 : ℚ) ≤ (([] : List (List ℚ × ℚ)).map Prod.snd).sum + 0.05 := by
  constructor
  · with_unfolding_all decide
  · exact claim_C3 initFaceState (List.replicate 11 255, 0.05) []
      (List.replicate 11 255, 0.05)
      (by norm_num) (by intro q hq; exact absurd hq (List.not_mem_nil q)) (by norm_num)
      (by with_unfolding_all decide)
      (by intro k hk; rw [Nat.le_zero.mp hk]; rfl)
      (by with_unfolding_all decide)

theorem pushHistory_of_le (h : List AudioFeatures) (f : AudioFeatures)
    (hle : h.length ≤ 9) : pushHistory h f = h ++ [f] := by
  rw [pushHistory, if_neg]
  rw [List.length_append, List.length_singleton]
  omega

theorem pushHistory_of_ge (h : List AudioFeatures) (f : AudioFeatures)
    (hge : 10 ≤ h.length) : pushHistory h f = (h ++ [f]).tail := by
  rw [pushHistory, if_pos]
  rw [List.length_append, List.length_singleton]
  omega

theorem foldl_pushHistory_spec (fs : List AudioFeatures) :
    (fs.foldl pushHistory []).length = min fs.length 10 ∧
    fs.foldl pushHistory [] = fs.drop (fs.length - 10) := by
  induction fs using List.reverseRecOn with
  | nil => simp
  | append_singleton l f ih =>
    obtain ⟨ihlen, iheq⟩ := ih
    rw [List.foldl_append, List.foldl_cons, List.foldl_nil, iheq]
    rcases le_or_lt l.length 9 with hle | hgt
    · have h0 : l.length - 10 = 0 := by omega
      have hHle : (l.drop (l.length - 10)).length ≤ 9 := by
        rw [h0, List.drop_zero]; exact hle
      rw [pushHistory_of_le _ f hHle, h0, List.drop_zero]
      constructor
      · rw [List.length_append, List.length_singleton]; omega
      · have h0' : l.length + 1 - 10 = 0 := by omega
        rw [List.length_append, List.length_singleton, h0', List.drop_zero]
    · have hHlen : (l.drop (l.length - 10)).length = 10 := by
        rw [List.length_drop]; omega
      rw [pushHistory_of_ge _ f (le_of_eq hHlen.symm)]
      have hne : l.drop (l.length - 10) ≠ [] := by
        intro hnil
        rw [hnil] at hHlen
        simp at hHlen
      obtain ⟨a, t, hat⟩ := List.exists_cons_of_ne_nil hne
      constructor
      · rw [List.length_tail, List.length_append, List.length_singleton, hHlen,
          List.length_append, List.length_singleton]
        omega
      · have htail : l.drop (l.length + 1 - 10) = t := by
          have hdrop := List.tail_drop l (l.length - 10)
          rw [hat, List.tail_cons] at hdrop
          have harith : l.length + 1 - 10 = l.length - 10 + 1 := by omega
          rw [harith]
          exact hdrop.symm
        rw [hat, List.cons_append, List.tail_cons, List.length_append,
          List.length_singleton,
          List.drop_append_of_le_length (by omega), htail]

theorem pushHistory_getLast? (h : List AudioFeatures) (f : AudioFeatures) :
    (pushHistory h f).getLast? = some f := by
  rw [pushHistory]; split_ifs with hlen
  · cases h with
    | nil => simp at hlen
    | cons a t =>
      rw [List.cons_append, List.tail_cons]
      exact List.getLast?_concat _
  · exact List.getLast?_concat _

theorem pushHistory_mem (h : List AudioFeatures) (f : AudioFeatures) :
    f ∈ pushHistory h f := by
  rw [pushHistory]; split_ifs with hlen
  · cases h with
    | nil => simp at hlen
    | cons a t => rw [List.cons_append, List.tail_cons]; simp
  · simp

theorem pushHistory_ne_nil (h : List AudioFeatures) (f : AudioFeatures) :
    pushHistory h f ≠ [] := by
  rw [pushHistory]; split_ifs with hlen
  · cases h with
    | nil => simp at hlen
    | cons a t => rw [List.cons_append, List.tail_cons]; simp
  · simp

theorem stepAvg_eq (st : FaceState) (frame : List ℚ) :
    stepAvg st frame = averageFeatures (stepHistory st frame) := by
  rw [stepAvg, if_pos]
  exact List.length_pos.mpr (pushHistory_ne_nil st.history (stepFeatures st frame))

/-- Claim C4: the rolling history holds at most 10 entries and after each
push contains exactly the last `min(n, 10)` pushed feature vectors in
recency order (oldest evicted first); the rolling average is recomputed
eagerly after the push, so the average used in the same tick is the mean of
a history that contains the current frame as its most recent entry. -/
theorem claim_C4 :
    (∀ fs : List AudioFeatures,
      (fs.foldl pushHistory []).length = min fs.length 10 ∧
      fs.foldl pushHistory [] = fs.drop (fs.length - 10)) ∧
    (∀ (st : FaceState) (frame : List ℚ) (dt : ℚ),
      (analyzeStep st frame dt).1.history
        = pushHistory st.history (stepFeatures st frame) ∧
      (analyzeStep st frame dt).1.history.getLast? = some (stepFeatures st frame) ∧
      stepFeatures st frame ∈ (analyzeStep st frame dt).1.history ∧
      (analyzeStep st frame dt).1.avgFeatures
        = averageFeatures ((analyzeStep st frame dt).1.history) ∧
      stepScores st frame
        = computeVisemeScores (stepFeatures st frame)
            (averageFeatures ((analyzeStep st frame dt).1.history))
            (stepDeltaVolume st frame) (stepDeltaCentroid st frame)) := by
  refine ⟨foldl_pushHistory_spec, ?_⟩
  intro st frame dt
  refine ⟨rfl, pushHistory_getLast? _ _, pushHistory_mem _ _, ?_, ?_⟩
  · rw [analyzeStep_avg, analyzeStep_history, stepAvg_eq]
  · rw [analyzeStep_history, stepScores, ← stepAvg_eq]

theorem binVal_nonneg (frame : List ℚ) (h : ∀ x ∈ frame, 0 ≤ x) (i : ℕ) :
    0 ≤ binVal frame i := by
  rw [binVal]
  rcases lt_or_ge i frame.length with hi | hi
  · rw [List.getD_eq_getElem frame 0 hi]
    exact div_nonneg (h _ (List.getElem_mem hi)) (by norm_num)
  · rw [List.getD_eq_default frame 0 hi]
    norm_num

theorem binVal_le_one (frame : List ℚ) (h : ∀ x ∈ frame, x ≤ 255) (i : ℕ) :
    binVal frame i ≤ 1 := by
  rw [binVal]
  rcases lt_or_ge i frame.length with hi | hi
  · rw [div_le_one (by norm_num : (0:ℚ) < 255)]
    rw [List.getD_eq_getElem frame 0 hi]
    exact h _ (List.getElem_mem hi)
  · rw [List.getD_eq_default frame 0 hi]
    norm_num

theorem bandSum_nonneg (frame : List ℚ) (h : ∀ x ∈ frame, 0 ≤ x) (r : ℕ × ℕ) :
    0 ≤ bandSum frame r := by
  rw [bandSum]
  apply List.sum_nonneg
  intro x hx
  rw [List.mem_map] at hx
  obtain ⟨i, _, rfl⟩ := hx
  exact binVal_nonneg frame h i

theorem bandValue_mem (frame : List ℚ) (hf : ∀ x ∈ frame, 0 ≤ x ∧ x ≤ 255)
    (r : ℕ × ℕ) : 0 ≤ bandValue frame r ∧ bandValue frame r ≤ 1 := by
  rw [bandValue]
  split_ifs with hc
  · have hlen : (rangeBins frame r).length = bandCount frame r := by
      rw [rangeBins, bandCount, List.length_range']
    have hsum0 : 0 ≤ bandSum frame r :=
      bandSum_nonneg frame (fun x hx => (hf x hx).1) r
    have hsum1 : bandSum frame r ≤ (bandCount frame r : ℚ) := by
      rw [bandSum]
      calc ((rangeBins frame r).map (binVal frame)).sum
          ≤ ((rangeBins frame r).map (binVal frame)).length • (1 : ℚ) := by
            apply List.sum_le_card_nsmul
            intro x hx
            rw [List.mem_map] at hx
            obtain ⟨i, _, rfl⟩ := hx
            exact binVal_le_one frame (fun x hx => (hf x hx).2) i
        _ = (bandCount frame r : ℚ) := by
            rw [List.length_map, hlen, nsmul_eq_mul, mul_one]
    have hcQ : (0 : ℚ) < (bandCount frame r : ℚ) := by exact_mod_cast hc
    exact ⟨div_nonneg hsum0 hcQ.le, (div_le_one hcQ).mpr hsum1⟩
  · norm_num

theorem extractBands_mem (frame : List ℚ) (hf : ∀ x ∈ frame, 0 ≤ x ∧ x ≤ 255)
    (i : Fin 8) : 0 ≤ extractBands frame i ∧ extractBands frame i ≤ 1 := by
  rw [extractBands]
  exact bandValue_mem frame hf _

theorem totalEnergy_nonneg (frame : List ℚ) (h : ∀ x ∈ frame, 0 ≤ x) :
    0 ≤ totalEnergy frame := by
  rw [totalEnergy]
  apply List.sum_nonneg
  intro x hx
  rw [List.mem_map] at hx
  obtain ⟨r, _, rfl⟩ := hx
  exact bandSum_nonneg frame h r

theorem mathMin_one_mem (x : ℚ) (hx : 0 ≤ x) :
    0 ≤ mathMin 1 x ∧ mathMin 1 x ≤ 1 := by
  rw [mathMin]
  split_ifs with h
  · norm_num
  · exact ⟨hx, (not_le.mp h).le⟩

theorem mathMax_zero_nonneg (x : ℚ) : 0 ≤ mathMax 0 x := by
  rw [mathMax]
  split_ifs with h
  · exact le_refl 0
  · exact (not_le.mp h).le

theorem volumeOf_mem (frame : List ℚ) (h0 : ∀ x ∈ frame, 0 ≤ x) :
    0 ≤ volumeOf frame ∧ volumeOf frame ≤ 1 := by
  rw [volumeOf]
  exact mathMin_one_mem _
    (div_nonneg (totalEnergy_nonneg frame h0) (Nat.cast_nonneg _))

theorem targetOpenOf_mem (bands : Fin 8 → ℚ) (volume : ℚ)
    (hb : ∀ i, 0 ≤ bands i) (hv : 0 ≤ volume) :
    0 ≤ targetOpenOf bands volume ∧ targetOpenOf bands volume ≤ 1 := by
  rw [targetOpenOf]
  apply mathMin_one_mem
  have h2 := hb 2
  have h3 := hb 3
  linarith

theorem targetSpreadOf_mem (bands : Fin 8 → ℚ) (hb : ∀ i, 0 ≤ bands i) :
    0 ≤ targetSpreadOf bands ∧ targetSpreadOf bands ≤ 1 := by
  rw [targetSpreadOf]
  apply mathMin_one_mem
  have h5 := hb 5
  have h6 := hb 6
  linarith

theorem targetRoundOf_mem (bands : Fin 8 → ℚ) :
    0 ≤ targetRoundOf bands ∧ targetRoundOf bands ≤ 1 := by
  rw [targetRoundOf]
  exact mathMin_one_mem _ (mathMax_zero_nonneg _)

theorem smoothChannel_mem (c t : ℚ) (hc : 0 ≤ c ∧ c ≤ 1) (ht : 0 ≤ t ∧ t ≤ 1) :
    0 ≤ smoothChannel c t ∧ smoothChannel c t ≤ 1 := by
  obtain ⟨hc0, hc1⟩ := hc
  obtain ⟨ht0, ht1⟩ := ht
  rw [smoothChannel, lerp]
  split_ifs with h <;> simp only [attackFactor, decayFactor]
  all_goals constructor <;> nlinarith

/-- Predicate used by claim C5: all three smoothed shape channels lie in
the unit interval. -/
def ShapeInBounds (s : ShapeState) : Prop :=
  0 ≤ s.open_ ∧ s.open_ ≤ 1 ∧ 0 ≤ s.spread ∧ s.spread ≤ 1 ∧
  0 ≤ s.round ∧ s.round ≤ 1

theorem shapeStep_bounds (shape : ShapeState) (bands : Fin 8 → ℚ) (volume : ℚ)
    (hs : ShapeInBounds shape) (hb : ∀ i, 0 ≤ bands i) (hv : 0 ≤ volume) :
    ShapeInBounds (shapeStep shape bands volume) := by
  obtain ⟨h1, h2, h3, h4, h5, h6⟩ := hs
  have ho := smoothChannel_mem shape.open_ _ ⟨h1, h2⟩ (targetOpenOf_mem bands volume hb hv)
  have hp := smoothChannel_mem shape.spread _ ⟨h3, h4⟩ (targetSpreadOf_mem bands hb)
  have hr := smoothChannel_mem shape.round _ ⟨h5, h6⟩ (targetRoundOf_mem bands)
  exact ⟨ho.1, ho.2, hp.1, hp.2, hr.1, hr.2⟩

theorem analyzeRun_shape_bounds (inputs : List (List ℚ × ℚ)) (st : FaceState)
    (hs : ShapeInBounds st.shape)
    (hf : ∀ p ∈ inputs, ∀ x ∈ p.1, 0 ≤ x ∧ x ≤ 255) :
    ShapeInBounds (analyzeRun st inputs).shape := by
  induction inputs generalizing st with
  | nil => exact hs
  | cons p t ih =>
    rw [analyzeRun_cons]
    apply ih
    · rw [analyzeStep_shape]
      apply shapeStep_bounds _ _ _ hs
      · intro i
        exact (extractBands_mem p.1 (hf p (List.mem_cons_self p t)) i).1
      · exact (volumeOf_mem p.1
          (fun x hx => (hf p (List.mem_cons_self p t) x hx).1)).1
    · intro q hq
      exact hf q (List.mem_cons_of_mem p hq)

/-- Claim C5: starting from the initial shape state (0, 0, 0), the smoothed
channels `open`, `spread`, `round` stay inside the unit interval for every
sequence of frames whose samples lie in the byte range (normalized band
energies and volume in the unit interval). -/
theorem claim_C5 (inputs : List (List ℚ × ℚ))
    (hf : ∀ p ∈ inputs, ∀ x ∈ p.1, 0 ≤ x ∧ x ≤ 255) :
    ShapeInBounds initFaceState.shape ∧
    ShapeInBounds (analyzeRun initFaceState inputs).shape := by
  have h0 : ShapeInBounds initFaceState.shape := by
    refine ⟨le_refl 0, ?_, le_refl 0, ?_, le_refl 0, ?_⟩ <;> norm_num [initFaceState]
  exact ⟨h0, analyzeRun_shape_bounds inputs initFaceState h0 hf⟩

theorem claim_C5_witness :
    ShapeInBounds (analyzeRun initFaceState [(List.replicate 3 100, 0.05)]).shape :=
  (claim_C5 [(List.replicate 3 100, 0.05)]
    (by intro p hp x hx
        rw [List.mem_singleton] at hp
        rw [hp] at hx
        have := List.eq_of_mem_replicate hx
        rw [this]
        norm_num)).2

/-- Channel value after `n` smoothing ticks rising from 0 toward a constant
target `s` (a step increase of magnitude `s`). -/
def riseVal (s : ℚ) : ℕ → ℚ
  | 0 => 0
  | n + 1 => smoothChannel (riseVal s n) s

/-- Channel value after `n` smoothing ticks falling from `s` toward a
constant target 0 (a step decrease of magnitude `s`). -/
def fallVal (s : ℚ) : ℕ → ℚ
  | 0 => s
  | n + 1 => smoothChannel (fallVal s n) 0

theorem riseVal_closed (s : ℚ) (hs : 0 < s) (n : ℕ) :
    riseVal s n = s * (1 - (0.7 : ℚ) ^ n) := by
  induction n with
  | zero => rw [riseVal, pow_zero]; ring
  | succ n ih =>
    have hlt : riseVal s n < s := by
      rw [ih]
      nlinarith [mul_pos hs (pow_pos (by norm_num : (0:ℚ) < 0.7) n)]
    rw [riseVal, smoothChannel, if_pos hlt, lerp, attackFactor, ih, pow_succ]
    ring

theorem fallVal_closed (s : ℚ) (hs : 0 < s) (n : ℕ) :
    fallVal s n = s * (0.85 : ℚ) ^ n := by
  induction n with
  | zero => rw [fallVal, pow_zero]; ring
  | succ n ih =>
    have hpos : 0 < fallVal s n := by
      rw [ih]
      exact mul_pos hs (pow_pos (by norm_num) n)
    rw [fallVal, smoothChannel, if_neg (not_lt.mpr hpos.le), lerp, decayFactor,
      ih, pow_succ]
    ring

/-- Claim C6: each shape channel is smoothed independently by linear
interpolation toward its target, with factor 0.3 when the target strictly
exceeds the current value and 0.15 otherwise; consequently a step increase
of any magnitude `s` reaches 90% of the step after 7 ticks (not before),
while an equal-magnitude step decrease first falls to 10% after 15 ticks,
so attack is observably faster than decay. -/
theorem claim_C6 (s : ℚ) (hs : 0 < s) :
    (∀ (st : FaceState) (frame : List ℚ) (dt : ℚ),
      (analyzeStep st frame dt).1.shape.open_
        = lerp st.shape.open_ (targetOpenOf (extractBands frame) (volumeOf frame))
            (if targetOpenOf (extractBands frame) (volumeOf frame) > st.shape.open_
              then 0.3 else 0.15) ∧
      (analyzeStep st frame dt).1.shape.spread
        = lerp st.shape.spread (targetSpreadOf (extractBands frame))
            (if targetSpreadOf (extractBands frame) > st.shape.spread
              then 0.3 else 0.15) ∧
      (analyzeStep st frame dt).1.shape.round
        = lerp st.shape.round (targetRoundOf (extractBands frame))
            (if targetRoundOf (extractBands frame) > st.shape.round
              then 0.3 else 0.15)) ∧
    (∀ n ≤ 6, riseVal s n < 0.9 * s) ∧
    0.9 * s ≤ riseVal s 7 ∧
    (∀ n ≤ 14, 0.1 * s < fallVal s n) ∧
    fallVal s 15 ≤ 0.1 * s ∧
    (7 : ℕ) < 15 := by
  refine ⟨fun st frame dt => ⟨rfl, rfl, rfl⟩, ?_, ?_, ?_, ?_, by norm_num⟩
  · intro n hn
    rw [riseVal_closed s hs n]
    have hpow : (0.7 : ℚ) ^ 6 ≤ (0.7 : ℚ) ^ n :=
      pow_le_pow_of_le_one (by norm_num) (by norm_num) hn
    have h6 : ((0.7 : ℚ) ^ 6) = 117649 / 1000000 := by norm_num
    nlinarith [mul_le_mul_of_nonneg_left hpow hs.le]
  · rw [riseVal_closed s hs 7]
    have h7 : ((0.7 : ℚ) ^ 7) = 823543 / 10000000 := by norm_num
    nlinarith
  · intro n hn
    rw [fallVal_closed s hs n]
    have hpow : (0.85 : ℚ) ^ 14 ≤ (0.85 : ℚ) ^ n :=
      pow_le_pow_of_le_one (by norm_num) (by norm_num) hn
    have h14 : ((0.85 : ℚ) ^ 14) > 1 / 10 := by norm_num
    nlinarith [mul_le_mul_of_nonneg_left hpow hs.le]
  · rw [fallVal_closed s hs 15]
    have h15 : ((0.85 : ℚ) ^ 15) ≤ 1 / 10 := by norm_num
    nlinarith

theorem claim_C6_witness :
    0.9 * 1 ≤ riseVal 1 7 ∧ fallVal 1 15 ≤ 0.1 * 1 :=
  ⟨(claim_C6 1 one_pos).2.2.1, (claim_C6 1 one_pos).2.2.2.2.1⟩

theorem range'_clip_append (a b c len : ℕ) (hab : a ≤ b) (hbc : b ≤ c) :
    List.range' a (min b len - a) ++ List.range' b (min c len - b)
      = List.range' a (min c len - a) := by
  rcases le_or_lt b len with hbl | hlb
  · have h1 : min b len = b := min_eq_left hbl
    rw [h1]
    have h2 : a + (b - a) = b := by omega
    have happ := List.range'_append_1 a (b - a) (min c len - b)
    rw [h2] at happ
    rw [happ]
    congr 1
    omega
  · have h1 : min b len = len := min_eq_right hlb.le
    have h2 : min c len = len := min_eq_right (by omega)
    rw [h1, h2]
    have h3 : len - b = 0 := by omega
    rw [h3, List.range'_zero, List.append_nil]

/-- Energy summed over the bins the band loop actually visits: the
contiguous range from bin 1 up to bin 170 exclusive, clipped to the
spectrum length. -/
def bandedSpecEnergy (frame : List ℚ) : ℚ :=
  ((List.range' 1 (min 170 frame.length - 1)).map (binVal frame)).sum

theorem totalEnergy_eq_banded (frame : List ℚ) :
    totalEnergy frame = bandedSpecEnergy frame := by
  have key : ∀ (a b c : ℕ), a ≤ b → b ≤ c →
      ((List.range' a (min b frame.length - a)).map (binVal frame)).sum
        + ((List.range' b (min c frame.length - b)).map (binVal frame)).sum
      = ((List.range' a (min c frame.length - a)).map (binVal frame)).sum := by
    intro a b c hab hbc
    rw [← List.sum_append, ← List.map_append,
      range'_clip_append a b c frame.length hab hbc]
  rw [totalEnergy, bandRanges]
  simp only [List.map_cons, List.map_nil, List.sum_cons, List.sum_nil, add_zero,
    bandSum, rangeBins]
  rw [← add_assoc, key 1 3 6 (by norm_num) (by norm_num)]
  rw [← add_assoc, key 1 6 11 (by norm_num) (by norm_num)]
  rw [← add_assoc, key 1 11 22 (by norm_num) (by norm_num)]
  rw [← add_assoc, key 1 22 43 (by norm_num) (by norm_num)]
  rw [← add_assoc, key 1 43 86 (by norm_num) (by norm_num)]
  rw [← add_assoc, key 1 86 128 (by norm_num) (by norm_num)]
  rw [key 1 128 170 (by norm_num) (by norm_num)]
  rw [bandedSpecEnergy]

theorem mathMax_zero_of_nonneg (x : ℚ) (hx : 0 ≤ x) : mathMax 0 x = x := by
  rw [mathMax]
  split_ifs with h
  · exact (le_antisymm h hx).symm
  · rfl

/-- Modelled from the spec (claim C7): the volume as the spec describes it,
total magnitude energy across the WHOLE spectrum (every normalized sample)
divided by the spectrum length and clamped to the unit interval. -/
def wholeSpectrumVolume (frame : List ℚ) : ℚ :=
  mathMax 0 (mathMin 1 ((frame.map (fun x => x / 255)).sum / (frame.length : ℚ)))

/-- Concrete frame refuting claim C7: all energy sits in bin 0, which the
band loop never visits. -/
def cexFrame : List ℚ := 255 :: List.replicate 10 0

theorem claim_C7_counterexample :
    volumeOf cexFrame ≠ wholeSpectrumVolume cexFrame ∧
    volumeOf cexFrame = 0 ∧ wholeSpectrumVolume cexFrame = 1 / 11 := by
  refine ⟨?_, ?_, ?_⟩ <;> with_unfolding_all decide

/-- Claim C7 amended: for every frame of nonnegative samples, the computed
volume equals the energy over the band bin ranges only (bins 1 to 169,
clipped to the spectrum length) divided by the spectrum length and clamped
to the unit interval; bins outside the band ranges do not contribute. -/
theorem claim_C7_amended (frame : List ℚ) (h0 : ∀ x ∈ frame, 0 ≤ x) :
    volumeOf frame
      = mathMax 0 (mathMin 1 (bandedSpecEnergy frame / (frame.length : ℚ))) ∧
    bandedSpecEnergy frame = totalEnergy frame := by
  have he := (totalEnergy_eq_banded frame).symm
  refine ⟨?_, he⟩
  rw [he]
  have hq : 0 ≤ mathMin 1 (totalEnergy frame / (frame.length : ℚ)) :=
    (mathMin_one_mem _
      (div_nonneg (totalEnergy_nonneg frame h0) (Nat.cast_nonneg _))).1
  rw [mathMax_zero_of_nonneg _ hq, volumeOf]

theorem claim_C7_amended_witness :
    volumeOf (List.replicate 4 (255 : ℚ))
      = mathMax 0 (mathMin 1 (bandedSpecEnergy (List.replicate 4 (255 : ℚ))
          / ((List.replicate 4 (255 : ℚ)).length : ℚ))) :=
  (claim_C7_amended (List.replicate 4 (255 : ℚ))
    (by intro x hx; rw [List.eq_of_mem_replicate hx]; norm_num)).1

theorem claim_C8_counterexample :
    stepDeltaVolume initFaceState (List.replicate 11 255) = 10 / 11 ∧
    stepDeltaVolume initFaceState (List.replicate 11 255) ≠ 0 := by
  constructor <;> with_unfolding_all decide

/-- Claim C8 amended: on the very first frame after stream start the
`deltaBands` features are all 0 (the history is empty), while `deltaVolume`
and `deltaCentroid` equal the current volume and centroid minus the initial
previous values 0; on every subsequent frame each delta is the current value
minus the previous frame's value. -/
theorem claim_C8_amended :
    (∀ frame : List ℚ,
      (stepFeatures initFaceState frame).deltaBands = (fun _ => 0) ∧
      initFaceState.lastVolume = 0 ∧ initFaceState.lastCentroid = 0 ∧
      stepDeltaVolume initFaceState frame = volumeOf frame - 0 ∧
      stepDeltaCentroid initFaceState frame = centroidOf frame - 0) ∧
    (∀ (st : FaceState) (frame0 : List ℚ) (dt0 : ℚ) (frame1 : List ℚ),
      stepDeltaVolume (analyzeStep st frame0 dt0).1 frame1
        = volumeOf frame1 - volumeOf frame0 ∧
      stepDeltaCentroid (analyzeStep st frame0 dt0).1 frame1
        = centroidOf frame1 - centroidOf frame0 ∧
      ∀ i : Fin 8, (stepFeatures (analyzeStep st frame0 dt0).1 frame1).deltaBands i
        = extractBands frame1 i - extractBands frame0 i) := by
  constructor
  · intro frame
    exact ⟨rfl, rfl, rfl, rfl, rfl⟩
  · intro st frame0 dt0 frame1
    refine ⟨?_, ?_, ?_⟩
    · rw [stepDeltaVolume, analyzeStep_lastVolume]
    · rw [stepDeltaCentroid, analyzeStep_lastCentroid]
    · intro i
      have hlast : (analyzeStep st frame0 dt0).1.history.getLast?
          = some (stepFeatures st frame0) :=
        pushHistory_getLast? st.history (stepFeatures st frame0)
      have hmatch : (stepFeatures (analyzeStep st frame0 dt0).1 frame1).deltaBands i
          = match (analyzeStep st frame0 dt0).1.history.getLast? with
            | some last => extractBands frame1 i - last.bands i
            | none => 0 := rfl
      rw [hmatch, hlast]
      rfl

theorem claim_C9_witness :
    normalizeBands (fun _ => 6) (fun _ => 2) 0 = 3
      ∧ normalizeBands (fun _ => 6) (fun _ => 0) 1 = 6
      ∧ centroidOf [] = 0
      ∧ bandValue [] (1, 3) = 0
      ∧ bandValue (List.replicate 4 (255 : ℚ)) (1, 3) = 1 := by
  refine ⟨?_, ?_, ?_, ?_, ?_⟩
  · rw [(claim_C9.1 (fun _ => 6) (fun _ => 2) 0).1 (by norm_num) |>.1]
    norm_num
  · rw [claim_C9.1 (fun _ => 6) (fun _ => 0) 1 |>.2 (by norm_num)]
  · exact claim_C9.2.1 [] (by with_unfolding_all decide)
  · exact claim_C9.2.2.2.1 [] (1, 3) (by with_unfolding_all decide)
  · rw [(claim_C9.2.2.2.2 (List.replicate 4 (255 : ℚ)) (1, 3)
      (by with_unfolding_all decide)).1]
    with_unfolding_all decide
